import Mathlib

/-!
Shallow embedding of `src/Assignment1.py`, a linear pipeline:
load a CSV file → split into features/labels → compute per-column
statistics → print a report → draw two plots.

Modelling conventions:
* Machine floating-point values are modelled as `Val := Option ℚ`:
  `some q` is an ordinary (finite) float with exact value `q`, and
  `none` is NaN.  The numpy reductions used by the script
  (`np.min`, `np.max`, `np.mean`, `np.median`) all propagate NaN,
  which the `Val`-level operations below reproduce.  Rounding of
  float arithmetic is not modelled; statistics are exact.
* A raw CSV data cell is a `Cell`: either a numeric token (carrying
  the rational it denotes) or a malformed (non-numeric) token.
  `np.genfromtxt` converts each numeric token to its float value and
  each malformed token to NaN; it raises (only) when the rows do not
  all have the same number of cells, which `genfromtxt` models by
  returning `none`.
* The header line is kept as a `List Char` and parsed exactly as
  `f.readline().strip().split(',')` does: whole-line strip, then
  split on commas.
* Library calls that raise unhandled exceptions on bad shapes
  (2-D indexing of a 1-D array, out-of-range indexing of `headers`,
  `plt.bar` with mismatched `x`/`height` lengths) are modelled as
  guards in `run` that lead to the `Outcome.fault` state.
-/

namespace Banknote

/-- Floating-point value: `some q` a finite float of exact value `q`,
`none` the NaN produced for malformed cells. -/
abbrev Val := Option ℚ

/-- Characters removed by Python's `str.strip()`. -/
def isPySpace (c : Char) : Bool :=
  c == ' ' || c == '\t' || c == '\n' || c == '\r' || c == '\x0b' || c == '\x0c'

/-- Python `str.strip()`: drop leading and trailing whitespace of the
whole string. -/
def pyStrip (s : List Char) : List Char :=
  ((s.dropWhile isPySpace).reverse.dropWhile isPySpace).reverse

/-- Python `str.split(',')`: split on every comma, keeping empty
pieces; the empty string yields `[""]`. -/
def splitComma : List Char → List (List Char)
  | [] => [[]]
  | c :: rest =>
    if c = ',' then [] :: splitComma rest
    else
      match splitComma rest with
      | [] => [[c]]
      | t :: ts => (c :: t) :: ts

/-- Header parsing of line 11: `f.readline().strip().split(',')`. -/
def parseHeader (line : List Char) : List (List Char) :=
  splitComma (pyStrip line)

/-- Inverse of `splitComma`: join tokens with single commas. -/
def joinComma : List (List Char) → List Char
  | [] => []
  | [t] => t
  | t :: t2 :: ts => t ++ ',' :: joinComma (t2 :: ts)

/-- A raw CSV data cell: a numeric token with its value, or a
non-numeric (malformed) token. -/
inductive Cell where
  | num (q : ℚ)
  | malformed
deriving DecidableEq

/-- Per-cell conversion performed by `np.genfromtxt` with float dtype:
numeric tokens parse to their value, anything else becomes NaN. -/
def Cell.parse : Cell → Val
  | .num q => some q
  | .malformed => none

/-- Number of columns of the parsed matrix (numpy takes it from the
first row). -/
def ncols (m : List (List Val)) : ℕ := (m.headD []).length

/-- Line 14, `np.genfromtxt(f, delimiter=',')`: parses every cell
(malformed cells become NaN) and raises `ValueError` — modelled as
`none` — when some row has a different number of cells than the
first row. -/
def genfromtxt (rows : List (List Cell)) : Option (List (List Val)) :=
  if rows.all (fun r => r.length = (rows.headD []).length) then
    some (rows.map (List.map Cell.parse))
  else
    none

/-- Line 27, `features = data[:, :-1].astype(np.float64)`: every
column but the last (the float cast is the identity on float data). -/
def featuresOf (data : List (List Val)) : List (List Val) :=
  data.map List.dropLast

/-- C-style float→int truncation toward zero, as in
`.astype(np.int64)` on finite values. -/
def truncQ (q : ℚ) : ℤ := if 0 ≤ q then ⌊q⌋ else ⌈q⌉

/-- Float→int64 cast; on NaN the numeric result is unspecified, which
the model records as `none`. -/
def castI (v : Val) : Option ℤ := v.map truncQ

/-- Line 28, `labels = data[:, -1].astype(np.int64)`: last column,
cast to integer. -/
def labelsOf (data : List (List Val)) : List (Option ℤ) :=
  data.map (fun r => castI (r.getLast?.getD none))

/-- NaN propagation of a binary numpy ufunc: the op on two finite
floats, NaN as soon as an operand is NaN. -/
def vLift (op : ℚ → ℚ → ℚ) (a b : Val) : Val :=
  match a, b with
  | some x, some y => some (op x y)
  | _, _ => none

/-- NaN-propagating minimum (`np.minimum`), the binary op folded by
`np.min(·, axis=0)`. -/
def vMin : Val → Val → Val := vLift min

/-- NaN-propagating maximum (`np.maximum`), the binary op folded by
`np.max(·, axis=0)`. -/
def vMax : Val → Val → Val := vLift max

/-- NaN-propagating addition (`np.add`), the binary op folded by the
sum inside `np.mean`. -/
def vAdd : Val → Val → Val := vLift (· + ·)

/-- Column minimum as `np.min` computes it on one column: a reduction
by the NaN-propagating minimum (empty columns do not occur in the
program; numpy raises there). -/
def colMin : List Val → Val
  | [] => none
  | v :: vs => vs.foldl vMin v

/-- Column maximum as `np.max` computes it on one column. -/
def colMax : List Val → Val
  | [] => none
  | v :: vs => vs.foldl vMax v

/-- Column sum (NaN-propagating), as inside `np.mean`. -/
def colSum (l : List Val) : Val := l.foldl vAdd (some 0)

/-- Column mean as `np.mean` computes it: sum divided by the element
count; the empty column gives NaN. -/
def colMean (l : List Val) : Val :=
  if l.length = 0 then none
  else (colSum l).map (fun s => s / (l.length : ℚ))

/-- Column median as `np.median` computes it: NaN if any entry is NaN
(numpy detects NaN in the partitioned data and returns NaN); otherwise
sort and take the middle element (odd length, index `n / 2`) or the
average of the two middle elements (even length, indices `n / 2 - 1`
and `n / 2`); the empty column gives NaN. -/
def colMedian (l : List Val) : Val :=
  if l.any (fun v => v.isNone) then none
  else
    let s := (l.filterMap id).insertionSort (· ≤ ·)
    let n := s.length
    if n = 0 then none
    else if n % 2 = 1 then some (s.getD (n / 2) 0)
    else some ((s.getD (n / 2 - 1) 0 + s.getD (n / 2) 0) / 2)

/-- Column `j` of a matrix, read top to bottom — the slice an
`axis=0` reduction works on. -/
def colAt (m : List (List Val)) (j : ℕ) : List Val :=
  m.map (fun r => r.getD j none)

/-- Column `j` of a NaN-free matrix, at the rational level. -/
def colAtQ (m : List (List ℚ)) (j : ℕ) : List ℚ :=
  m.map (fun r => r.getD j 0)

/-- Line 34, `minimums = np.min(features, axis=0)`. -/
def minimums (feats : List (List Val)) (nf : ℕ) : List Val :=
  (List.range nf).map (fun j => colMin (colAt feats j))

/-- Line 35, `maximums = np.max(features, axis=0)`. -/
def maximums (feats : List (List Val)) (nf : ℕ) : List Val :=
  (List.range nf).map (fun j => colMax (colAt feats j))

/-- Line 36, `averages = np.mean(features, axis=0)`. -/
def averages (feats : List (List Val)) (nf : ℕ) : List Val :=
  (List.range nf).map (fun j => colMean (colAt feats j))

/-- Line 37, `medians = np.median(features, axis=0)`. -/
def medians (feats : List (List Val)) (nf : ℕ) : List Val :=
  (List.range nf).map (fun j => colMedian (colAt feats j))

/-- One printed row of the report table: feature name and its four
statistics (lines 45–50). -/
structure ReportRow where
  name : List Char
  min : Val
  max : Val
  avg : Val
  med : Val
deriving DecidableEq

/-- The report table body: one row per feature column (lines 45–50).
Row `i` shows `headers[i]` with `minimums[i]`, `maximums[i]`,
`averages[i]`, `medians[i]`. -/
def reportOf (headers : List (List Char)) (feats : List (List Val)) (nf : ℕ) :
    List ReportRow :=
  (List.range nf).map (fun i =>
    ⟨headers.getD i [], (minimums feats nf).getD i none,
      (maximums feats nf).getD i none, (averages feats nf).getD i none,
      (medians feats nf).getD i none⟩)

/-- How a run of the script ends. -/
inductive Outcome where
  /-- Printed the given lines to stdout and called `exit code`. -/
  | exitWith (stdout : List String) (code : ℕ)
  /-- Ran to the end: report printed, both plots shown, exit code 0. -/
  | completed (report : List ReportRow)
  /-- Terminated by an unhandled exception (stack trace). -/
  | fault
deriving DecidableEq

/-- First line printed when the input file is missing (line 17). -/
def errLine1 : String :=
  "Error: Required file \x27banknote_data.csv\x27 not found."

/-- Second line printed when the input file is missing (line 18). -/
def errLine2 : String :=
  "Please ensure the file is in the same directory as this script."

/-- The input file as the loader sees it: the first line, and the
remaining lines already broken at commas into raw cells. -/
structure CSVFile where
  headerLine : List Char
  rows : List (List Cell)

/-- The whole script, as a function of the input file (`none` means
`open` raises `FileNotFoundError`).  Faults model the unhandled
exceptions of the real run: `genfromtxt` on ragged rows; 2-D indexing
`data[:, :-1]` of the 1-D array produced for fewer than two data rows,
and of a zero-column array; `headers[i]` out of range in the report
loop; column 3 missing in the scatter plot; `plt.bar` with
`len(headers)-1` positions against the `nf` averages. -/
def run (file : Option CSVFile) : Outcome :=
  match file with
  | none => .exitWith [errLine1, errLine2] 1
  | some f =>
    let headers := parseHeader f.headerLine
    match genfromtxt f.rows with
    | none => .fault
    | some data =>
      if 2 ≤ data.length ∧ 1 ≤ ncols data then
        let nf := ncols data - 1
        let feats := featuresOf data
        if nf ≤ headers.length then
          let report := reportOf headers feats nf
          if 4 ≤ nf ∧ headers.length - 1 = nf then .completed report
          else .fault
        else .fault
      else .fault

/-- Number of feature columns the file would yield: cells of the first
data row, minus the label column. -/
def featCount (f : CSVFile) : ℕ := (f.rows.headD []).length - 1

/-- Whether some data cell of the file is non-numeric. -/
def hasMalformedCell (f : CSVFile) : Bool :=
  f.rows.any (fun r => r.any (fun c => c = Cell.malformed))

/-- Whether the run reached normal completion (exit code 0). -/
def Outcome.isCompleted : Outcome → Bool
  | .completed _ => true
  | _ => false

/-- The report of a completed run (junk otherwise). -/
def Outcome.getReport : Outcome → List ReportRow
  | .completed r => r
  | _ => []

/-- Minimum of a list of rationals by left fold, the value `np.min`
produces on a NaN-free column. -/
def qMin : List ℚ → ℚ
  | [] => 0
  | x :: xs => xs.foldl min x

/-- Maximum of a list of rationals by left fold, the value `np.max`
produces on a NaN-free column. -/
def qMax : List ℚ → ℚ
  | [] => 0
  | x :: xs => xs.foldl max x

/-- Textbook median, written from the specification: sort the column;
odd length `n` gives the element at position `(n-1)/2`, even length
the average of the elements at positions `n/2-1` and `n/2`. -/
def textbookMedian (l : List ℚ) : ℚ :=
  let s := l.insertionSort (· ≤ ·)
  if l.length % 2 = 1 then s.getD ((l.length - 1) / 2) 0
  else (s.getD (l.length / 2 - 1) 0 + s.getD (l.length / 2) 0) / 2

/-- Concrete input of Scenario B: features `[[1,2,3,4],[5,6,7,8],[9,10,11,12]]`
with labels `[0,1,0]`, as the loaded 3×5 matrix. -/
def dataB : List (List Val) :=
  [[some 1, some 2, some 3, some 4, some 0],
   [some 5, some 6, some 7, some 8, some 1],
   [some 9, some 10, some 11, some 12, some 0]]

/-- A well-shaped 2×5 data section with one non-numeric cell
(row 0, column 1). -/
def rowsMal : List (List Cell) :=
  [[Cell.num 1, Cell.malformed, Cell.num 3, Cell.num 4, Cell.num 0],
   [Cell.num 5, Cell.num 6, Cell.num 7, Cell.num 8, Cell.num 1]]

/-- A complete input file whose data section is `rowsMal`. -/
def fileMal : CSVFile :=
  ⟨"variance,skewness,curtosis,entropy,class".toList, rowsMal⟩

/-- A fully numeric 2×5 input file. -/
def fileOk : CSVFile :=
  ⟨"variance,skewness,curtosis,entropy,class".toList,
   [[Cell.num 1, Cell.num 2, Cell.num 3, Cell.num 4, Cell.num 0],
    [Cell.num 5, Cell.num 6, Cell.num 7, Cell.num 8, Cell.num 1]]⟩

/-- A header line whose second comma-separated token keeps a leading
space after the whole-line strip. -/
def lineWS : List Char := "a, b\n".toList

/-- A 2×5 fully numeric matrix used to instantiate the splitter
claims. -/
def dataOk : List (List Val) :=
  [[some 1, some 2, some 3, some 4, some 0],
   [some 5, some 6, some 7, some 8, some 1]]

/-! ### Header-parsing lemmas -/

theorem head?_dropWhile_false {p : Char → Bool} :
    ∀ {l : List Char} {c : Char}, ((l.dropWhile p).head? = some c) → p c = false := by
  intro l
  induction l with
  | nil => intro c h; simp [List.dropWhile] at h
  | cons x xs ih =>
    intro c h
    rw [List.dropWhile_cons] at h
    by_cases hp : p x
    · rw [if_pos hp] at h
      exact ih h
    · rw [if_neg hp] at h
      simp only [List.head?_cons, Option.some.injEq] at h
      subst h
      exact Bool.eq_false_iff.mpr hp

theorem head?_pyStrip {s : List Char} {c : Char}
    (h : (pyStrip s).head? = some c) : isPySpace c = false := by
  unfold pyStrip at h
  rw [List.head?_reverse] at h
  have hd : ((s.dropWhile isPySpace).reverse.dropWhile isPySpace) ≠ [] := by
    intro he
    rw [he] at h
    simp at h
  obtain ⟨pre, hpre⟩ :=
    List.dropWhile_suffix (l := (s.dropWhile isPySpace).reverse) isPySpace
  have h2 : (s.dropWhile isPySpace).reverse.getLast? = some c := by
    rw [← hpre, List.getLast?_append_of_ne_nil _ hd]
    exact h
  rw [List.getLast?_reverse] at h2
  exact head?_dropWhile_false h2

theorem getLast?_pyStrip {s : List Char} {c : Char}
    (h : (pyStrip s).getLast? = some c) : isPySpace c = false := by
  unfold pyStrip at h
  rw [List.getLast?_reverse] at h
  exact head?_dropWhile_false h

theorem splitComma_ne_nil : ∀ s : List Char, splitComma s ≠ [] := by
  intro s
  cases s with
  | nil => simp [splitComma]
  | cons c rest =>
    rw [splitComma]
    by_cases hc : c = ','
    · rw [if_pos hc]; simp
    · rw [if_neg hc]
      cases splitComma rest <;> simp

theorem joinComma_splitComma : ∀ s : List Char, joinComma (splitComma s) = s := by
  intro s
  induction s with
  | nil => rfl
  | cons c rest ih =>
    rw [splitComma]
    by_cases hc : c = ','
    · rw [if_pos hc]
      cases hr : splitComma rest with
      | nil => exact absurd hr (splitComma_ne_nil rest)
      | cons t ts =>
        rw [joinComma, hc]
        rw [hr] at ih
        simp [ih]
    · rw [if_neg hc]
      cases hr : splitComma rest with
      | nil => exact absurd hr (splitComma_ne_nil rest)
      | cons t ts =>
        rw [hr] at ih
        cases ts with
        | nil =>
          rw [joinComma]
          rw [joinComma] at ih
          simp [ih]
        | cons t2 ts2 =>
          rw [joinComma]
          rw [joinComma] at ih
          simp [ih]

theorem firstToken_head {s : List Char} {c : Char}
    (h : ((splitComma s).headD []).head? = some c) : s.head? = some c := by
  cases s with
  | nil => simp [splitComma] at h
  | cons x rest =>
    rw [splitComma] at h
    by_cases hx : x = ','
    · rw [if_pos hx] at h
      simp at h
    · rw [if_neg hx] at h
      cases hr : splitComma rest with
      | nil => exact absurd hr (splitComma_ne_nil rest)
      | cons t ts =>
        rw [hr] at h
        simp only [List.headD_cons, List.head?_cons, Option.some.injEq] at h
        simp [h]

theorem joinComma_getLast :
    ∀ (ts : List (List Char)) (tl : List Char) (c : Char),
      ts.getLast? = some tl → tl.getLast? = some c →
      (joinComma ts).getLast? = some c := by
  intro ts
  induction ts with
  | nil => intro tl c h1 _; simp at h1
  | cons t rest ih =>
    intro tl c h1 h2
    cases rest with
    | nil =>
      simp only [List.getLast?_singleton, Option.some.injEq] at h1
      subst h1
      rw [joinComma]
      exact h2
    | cons t2 ts2 =>
      rw [List.getLast?_cons_cons] at h1
      have hj := ih tl c h1 h2
      rw [joinComma]
      rw [List.getLast?_append_of_ne_nil _ (by simp)]
      cases hjj : joinComma (t2 :: ts2) with
      | nil => rw [hjj] at hj; simp at hj
      | cons a as =>
        rw [hjj] at hj
        rw [List.getLast?_cons_cons]
        exact hj

/-! ### NaN propagation and fold bridges -/

theorem vLift_none_left (op : ℚ → ℚ → ℚ) (b : Val) : vLift op none b = none := by
  cases b <;> rfl

theorem vLift_none_right (op : ℚ → ℚ → ℚ) (a : Val) : vLift op a none = none := by
  cases a <;> rfl

theorem foldl_vLift_none (op : ℚ → ℚ → ℚ) (xs : List Val) :
    xs.foldl (vLift op) none = none := by
  induction xs with
  | nil => rfl
  | cons x xs ih => rw [List.foldl_cons, vLift_none_left]; exact ih

theorem foldl_vLift_mem_none (op : ℚ → ℚ → ℚ) {xs : List Val} (acc : Val)
    (h : none ∈ xs) : xs.foldl (vLift op) acc = none := by
  induction xs generalizing acc with
  | nil => simp at h
  | cons x xs ih =>
    rcases List.mem_cons.mp h with hx | hx
    · rw [List.foldl_cons, ← hx, vLift_none_right]
      exact foldl_vLift_none op xs
    · exact ih _ hx

theorem foldl_vLift_map (op : ℚ → ℚ → ℚ) (xs : List ℚ) (a : ℚ) :
    (xs.map some).foldl (vLift op) (some a) = some (xs.foldl op a) := by
  induction xs generalizing a with
  | nil => rfl
  | cons x xs ih => simpa using ih (op a x)

theorem colMin_map_some {l : List ℚ} (h : l ≠ []) :
    colMin (l.map some) = some (qMin l) := by
  cases l with
  | nil => exact absurd rfl h
  | cons x xs =>
    show (xs.map some).foldl vMin (some x) = some (qMin (x :: xs))
    rw [qMin]
    exact foldl_vLift_map min xs x

theorem colMax_map_some {l : List ℚ} (h : l ≠ []) :
    colMax (l.map some) = some (qMax l) := by
  cases l with
  | nil => exact absurd rfl h
  | cons x xs =>
    show (xs.map some).foldl vMax (some x) = some (qMax (x :: xs))
    rw [qMax]
    exact foldl_vLift_map max xs x

theorem foldl_add_eq (l : List ℚ) (a : ℚ) : l.foldl (· + ·) a = a + l.sum := by
  induction l generalizing a with
  | nil => simp
  | cons x xs ih => rw [List.foldl_cons, ih (a + x), List.sum_cons]; ring

theorem colSum_map_some (l : List ℚ) : colSum (l.map some) = some l.sum := by
  show (l.map some).foldl vAdd (some 0) = some l.sum
  exact (foldl_vLift_map (· + ·) l 0).trans (by rw [foldl_add_eq, zero_add])

theorem colMean_map_some {l : List ℚ} (h : l ≠ []) :
    colMean (l.map some) = some (l.sum / (l.length : ℚ)) := by
  rw [colMean, colSum_map_some]
  rw [List.length_map]
  rw [if_neg (by simp [h])]
  rfl

theorem colMin_of_none_mem {l : List Val} (h : none ∈ l) : colMin l = none := by
  cases l with
  | nil => rfl
  | cons v vs =>
    show vs.foldl vMin v = none
    rcases List.mem_cons.mp h with hv | hv
    · rw [← hv]; exact foldl_vLift_none min vs
    · exact foldl_vLift_mem_none min v hv

theorem colMax_of_none_mem {l : List Val} (h : none ∈ l) : colMax l = none := by
  cases l with
  | nil => rfl
  | cons v vs =>
    show vs.foldl vMax v = none
    rcases List.mem_cons.mp h with hv | hv
    · rw [← hv]; exact foldl_vLift_none max vs
    · exact foldl_vLift_mem_none max v hv

theorem colMean_of_none_mem {l : List Val} (h : none ∈ l) : colMean l = none := by
  rw [colMean]
  split
  · rfl
  · rw [show colSum l = none from foldl_vLift_mem_none (· + ·) (some 0) h]
    rfl

theorem colMedian_of_none_mem {l : List Val} (h : none ∈ l) : colMedian l = none := by
  rw [colMedian, if_pos]
  simp only [List.any_eq_true]
  exact ⟨none, h, rfl⟩

theorem colMedian_map (l : List ℚ) :
    colMedian (l.map some) =
      (if l.length = 0 then none
       else if l.length % 2 = 1 then
         some ((l.insertionSort (· ≤ ·)).getD (l.length / 2) 0)
       else
         some (((l.insertionSort (· ≤ ·)).getD (l.length / 2 - 1) 0 +
           (l.insertionSort (· ≤ ·)).getD (l.length / 2) 0) / 2)) := by
  rw [colMedian, if_neg]
  · have hfm : (l.map some).filterMap id = l := by
      rw [List.filterMap_map]
      exact List.filterMap_some l
    simp only [hfm, List.length_insertionSort]
  · simp

/-! ### Bounds for the rational-level statistics -/

theorem foldl_min_le_init (xs : List ℚ) (a : ℚ) : xs.foldl min a ≤ a := by
  induction xs generalizing a with
  | nil => exact le_refl a
  | cons x xs ih => exact le_trans (ih (min a x)) (min_le_left a x)

theorem foldl_min_le_mem {x : ℚ} {xs : List ℚ} (a : ℚ) (h : x ∈ xs) :
    xs.foldl min a ≤ x := by
  induction xs generalizing a with
  | nil => simp at h
  | cons y ys ih =>
    rcases List.mem_cons.mp h with hy | hy
    · subst hy
      exact le_trans (foldl_min_le_init ys (min a x)) (min_le_right a x)
    · exact ih _ hy

theorem foldl_min_eq_or_mem (xs : List ℚ) (a : ℚ) :
    xs.foldl min a = a ∨ xs.foldl min a ∈ xs := by
  induction xs generalizing a with
  | nil => exact Or.inl rfl
  | cons x xs ih =>
    rcases ih (min a x) with h | h
    · rw [List.foldl_cons, h]
      rcases min_choice a x with hc | hc
      · exact Or.inl hc
      · right; rw [hc]; exact List.mem_cons_self x xs
    · exact Or.inr (List.mem_cons_of_mem x h)

theorem qMin_le_of_mem {x : ℚ} {l : List ℚ} (h : x ∈ l) : qMin l ≤ x := by
  cases l with
  | nil => simp at h
  | cons y ys =>
    rw [qMin]
    rcases List.mem_cons.mp h with hy | hy
    · exact hy ▸ foldl_min_le_init ys y
    · exact foldl_min_le_mem y hy

theorem qMin_mem {l : List ℚ} (h : l ≠ []) : qMin l ∈ l := by
  cases l with
  | nil => exact absurd rfl h
  | cons y ys =>
    rw [qMin]
    rcases foldl_min_eq_or_mem ys y with hy | hy
    · rw [hy]; exact List.mem_cons_self y ys
    · exact List.mem_cons_of_mem y hy

theorem le_foldl_max_init (xs : List ℚ) (a : ℚ) : a ≤ xs.foldl max a := by
  induction xs generalizing a with
  | nil => exact le_refl a
  | cons x xs ih => exact le_trans (le_max_left a x) (ih (max a x))

theorem mem_le_foldl_max {x : ℚ} {xs : List ℚ} (a : ℚ) (h : x ∈ xs) :
    x ≤ xs.foldl max a := by
  induction xs generalizing a with
  | nil => simp at h
  | cons y ys ih =>
    rcases List.mem_cons.mp h with hy | hy
    · subst hy
      exact le_trans (le_max_right a x) (le_foldl_max_init ys (max a x))
    · exact ih _ hy

theorem foldl_max_eq_or_mem (xs : List ℚ) (a : ℚ) :
    xs.foldl max a = a ∨ xs.foldl max a ∈ xs := by
  induction xs generalizing a with
  | nil => exact Or.inl rfl
  | cons x xs ih =>
    rcases ih (max a x) with h | h
    · rw [List.foldl_cons, h]
      rcases max_choice a x with hc | hc
      · exact Or.inl hc
      · right; rw [hc]; exact List.mem_cons_self x xs
    · exact Or.inr (List.mem_cons_of_mem x h)

theorem le_qMax_of_mem {x : ℚ} {l : List ℚ} (h : x ∈ l) : x ≤ qMax l := by
  cases l with
  | nil => simp at h
  | cons y ys =>
    rw [qMax]
    rcases List.mem_cons.mp h with hy | hy
    · exact hy ▸ le_foldl_max_init ys y
    · exact mem_le_foldl_max y hy

theorem qMax_mem {l : List ℚ} (h : l ≠ []) : qMax l ∈ l := by
  cases l with
  | nil => exact absurd rfl h
  | cons y ys =>
    rw [qMax]
    rcases foldl_max_eq_or_mem ys y with hy | hy
    · rw [hy]; exact List.mem_cons_self y ys
    · exact List.mem_cons_of_mem y hy

theorem qMin_le_mean {l : List ℚ} (h : l ≠ []) :
    qMin l ≤ l.sum / (l.length : ℚ) := by
  have hn : (0 : ℚ) < (l.length : ℚ) := by
    have : 0 < l.length := List.length_pos.mpr h
    exact_mod_cast this
  rw [le_div_iff₀ hn]
  have hb : l.length • qMin l ≤ l.sum :=
    List.card_nsmul_le_sum l (qMin l) (fun x hx => qMin_le_of_mem hx)
  rw [nsmul_eq_mul] at hb
  linarith [hb]

theorem mean_le_qMax {l : List ℚ} (h : l ≠ []) :
    l.sum / (l.length : ℚ) ≤ qMax l := by
  have hn : (0 : ℚ) < (l.length : ℚ) := by
    have : 0 < l.length := List.length_pos.mpr h
    exact_mod_cast this
  rw [div_le_iff₀ hn]
  have hb : l.sum ≤ l.length • qMax l :=
    List.sum_le_card_nsmul l (qMax l) (fun x hx => le_qMax_of_mem hx)
  rw [nsmul_eq_mul] at hb
  linarith [hb]

theorem getD_mem {α : Type} (l : List α) (n : ℕ) (d : α) (h : n < l.length) :
    l.getD n d ∈ l := by
  rw [List.getD_eq_getElem l d h]
  exact List.getElem_mem h

theorem colMedian_bounds {l : List ℚ} (h : l ≠ []) :
    ∃ md, colMedian (l.map some) = some md ∧ qMin l ≤ md ∧ md ≤ qMax l := by
  have hn : l.length ≠ 0 := by simp [h]
  have hpos : 0 < l.length := Nat.pos_of_ne_zero hn
  have hlen : (l.insertionSort (· ≤ ·)).length = l.length :=
    List.length_insertionSort _ _
  have hmem : ∀ k, k < l.length → (l.insertionSort (· ≤ ·)).getD k 0 ∈ l := by
    intro k hk
    have hk2 : k < (l.insertionSort (· ≤ ·)).length := by rw [hlen]; exact hk
    exact (List.mem_insertionSort (· ≤ ·)).mp (getD_mem _ k 0 hk2)
  rw [colMedian_map, if_neg hn]
  by_cases hodd : l.length % 2 = 1
  · rw [if_pos hodd]
    have hm := hmem (l.length / 2) (Nat.div_lt_self hpos one_lt_two)
    exact ⟨_, rfl, qMin_le_of_mem hm, le_qMax_of_mem hm⟩
  · rw [if_neg hodd]
    have hia : l.length / 2 - 1 < l.length := by omega
    have hib : l.length / 2 < l.length := Nat.div_lt_self hpos one_lt_two
    have hma := hmem _ hia
    have hmb := hmem _ hib
    refine ⟨_, rfl, ?_, ?_⟩
    · have h1 := qMin_le_of_mem hma
      have h2 := qMin_le_of_mem hmb
      linarith
    · have h1 := le_qMax_of_mem hma
      have h2 := le_qMax_of_mem hmb
      linarith

/-! ### Indexing bridges -/

theorem getD_range_map {α : Type} (f : ℕ → α) (d : α) {i n : ℕ} (h : i < n) :
    ((List.range n).map f).getD i d = f i := by
  have hl : i < ((List.range n).map f).length := by
    rw [List.length_map, List.length_range]; exact h
  rw [List.getD_eq_getElem _ d hl, List.getElem_map]
  congr 1
  exact List.getElem_range _ _

theorem getD_map_some {r : List ℚ} {j : ℕ} (h : j < r.length) :
    (r.map some).getD j none = some (r.getD j 0) := by
  have hl : j < (r.map some).length := by rw [List.length_map]; exact h
  rw [List.getD_eq_getElem _ none hl, List.getElem_map,
    List.getD_eq_getElem _ 0 h]

theorem colAt_map_some {m : List (List ℚ)} {j : ℕ}
    (h : ∀ r ∈ m, j < r.length) :
    colAt (m.map (List.map some)) j = (colAtQ m j).map some := by
  rw [colAt, colAtQ, List.map_map, List.map_map]
  refine List.map_congr_left ?_
  intro r hr
  exact getD_map_some (h r hr)

theorem length_colAtQ (m : List (List ℚ)) (j : ℕ) :
    (colAtQ m j).length = m.length := List.length_map m _

theorem colAtQ_ne_nil {m : List (List ℚ)} (h : m ≠ []) (j : ℕ) :
    colAtQ m j ≠ [] := by
  intro he
  have := length_colAtQ m j
  rw [he] at this
  exact h (List.length_eq_zero.mp this.symm)

/-! ### Inverting the loader -/

theorem genfromtxt_eq_some {rows : List (List Cell)} {data : List (List Val)}
    (h : genfromtxt rows = some data) :
    data = rows.map (List.map Cell.parse) ∧
      ∀ r ∈ rows, r.length = (rows.headD []).length := by
  rw [genfromtxt] at h
  by_cases hc : rows.all (fun r => decide (r.length = (rows.headD []).length))
  · refine ⟨?_, ?_⟩
    · rw [if_pos hc] at h
      exact (Option.some.injEq _ _ ▸ h).symm
    · intro r hr
      exact of_decide_eq_true (List.all_eq_true.mp hc r hr)
  · rw [if_neg hc] at h
    exact absurd h (by simp)

theorem ncols_map_parse (rows : List (List Cell)) :
    ncols (rows.map (List.map Cell.parse)) = (rows.headD []).length := by
  cases rows with
  | nil => rfl
  | cons r rs =>
    show (((r.map Cell.parse) :: rs.map (List.map Cell.parse)).headD []).length = r.length
    exact List.length_map r _

theorem colMedian_map_textbook {l : List ℚ} (h : l ≠ []) :
    colMedian (l.map some) = some (textbookMedian l) := by
  have hn : l.length ≠ 0 := by simp [h]
  rw [colMedian_map, if_neg hn]
  simp only [textbookMedian]
  by_cases hodd : l.length % 2 = 1
  · rw [if_pos hodd, if_pos hodd]
    have he : l.length / 2 = (l.length - 1) / 2 := by omega
    rw [he]
  · rw [if_neg hodd, if_neg hodd]

theorem textbookMedian_bounds {l : List ℚ} (h : l ≠ []) :
    qMin l ≤ textbookMedian l ∧ textbookMedian l ≤ qMax l := by
  obtain ⟨md, hmd, h1, h2⟩ := colMedian_bounds h
  rw [colMedian_map_textbook h] at hmd
  have : md = textbookMedian l := by
    exact (Option.some.injEq _ _ ▸ hmd.symm)
  rw [← this]
  exact ⟨h1, h2⟩

/-! ### Claim theorems -/

/-- C1: if the input file `banknote_data.csv` is absent, the program
prints exactly the two explanatory error lines, writes nothing else,
and terminates with exit code 1. -/
theorem missing_file_two_lines_exit1 :
    run none = Outcome.exitWith [errLine1, errLine2] 1 := rfl

/-- C3: for every non-empty (NaN-free) feature column, the median the
program computes equals the textbook definition: the sorted column's
element at position `(n-1)/2` for odd length `n`, and the average of
the sorted elements at positions `n/2-1` and `n/2` for even length. -/
theorem median_is_textbook (l : List ℚ) (h : l ≠ []) :
    colMedian (l.map some) = some (textbookMedian l) :=
  colMedian_map_textbook h

/-- Witness for C3 at the concrete column `[3, 1, 2]`. -/
theorem median_is_textbook_witness :
    colMedian (([3, 1, 2] : List ℚ).map some) =
      some (textbookMedian ([3, 1, 2] : List ℚ)) :=
  median_is_textbook [3, 1, 2] (by decide)

/-- C4: for every valid input (a non-empty rectangular matrix of
numbers) and every feature index `i`, the program's
`minimums[i] ≤ medians[i] ≤ maximums[i]` and
`minimums[i] ≤ averages[i] ≤ maximums[i]`; the four statistics are the
finite values shown. -/
theorem stats_bounded (featsQ : List (List ℚ)) (nf : ℕ)
    (hne : featsQ ≠ []) (hrect : ∀ r ∈ featsQ, r.length = nf)
    (i : ℕ) (hi : i < nf) :
    (minimums (featsQ.map (List.map some)) nf).getD i none =
        some (qMin (colAtQ featsQ i)) ∧
    (maximums (featsQ.map (List.map some)) nf).getD i none =
        some (qMax (colAtQ featsQ i)) ∧
    (averages (featsQ.map (List.map some)) nf).getD i none =
        some ((colAtQ featsQ i).sum / ((colAtQ featsQ i).length : ℚ)) ∧
    (medians (featsQ.map (List.map some)) nf).getD i none =
        some (textbookMedian (colAtQ featsQ i)) ∧
    qMin (colAtQ featsQ i) ≤ textbookMedian (colAtQ featsQ i) ∧
    textbookMedian (colAtQ featsQ i) ≤ qMax (colAtQ featsQ i) ∧
    qMin (colAtQ featsQ i) ≤ (colAtQ featsQ i).sum / ((colAtQ featsQ i).length : ℚ) ∧
    (colAtQ featsQ i).sum / ((colAtQ featsQ i).length : ℚ) ≤ qMax (colAtQ featsQ i) := by
  have hb : ∀ r ∈ featsQ, i < r.length := by
    intro r hr
    rw [hrect r hr]
    exact hi
  have hcol : colAt (featsQ.map (List.map some)) i = (colAtQ featsQ i).map some :=
    colAt_map_some hb
  have hlne : colAtQ featsQ i ≠ [] := colAtQ_ne_nil hne i
  obtain ⟨hm1, hm2⟩ := textbookMedian_bounds hlne
  refine ⟨?_, ?_, ?_, ?_, hm1, hm2, qMin_le_mean hlne, mean_le_qMax hlne⟩
  · rw [minimums, getD_range_map _ _ hi, hcol, colMin_map_some hlne]
  · rw [maximums, getD_range_map _ _ hi, hcol, colMax_map_some hlne]
  · rw [averages, getD_range_map _ _ hi, hcol, colMean_map_some hlne]
  · rw [medians, getD_range_map _ _ hi, hcol, colMedian_map_textbook hlne]

/-- Witness for C4 at the concrete matrix `[[1,2],[3,4]]`, column 1. -/
theorem stats_bounded_witness :
    (minimums (([[1, 2], [3, 4]] : List (List ℚ)).map (List.map some)) 2).getD 1 none =
        some (qMin (colAtQ ([[1, 2], [3, 4]] : List (List ℚ)) 1)) ∧
    (maximums (([[1, 2], [3, 4]] : List (List ℚ)).map (List.map some)) 2).getD 1 none =
        some (qMax (colAtQ ([[1, 2], [3, 4]] : List (List ℚ)) 1)) ∧
    (averages (([[1, 2], [3, 4]] : List (List ℚ)).map (List.map some)) 2).getD 1 none =
        some ((colAtQ ([[1, 2], [3, 4]] : List (List ℚ)) 1).sum /
          ((colAtQ ([[1, 2], [3, 4]] : List (List ℚ)) 1).length : ℚ)) ∧
    (medians (([[1, 2], [3, 4]] : List (List ℚ)).map (List.map some)) 2).getD 1 none =
        some (textbookMedian (colAtQ ([[1, 2], [3, 4]] : List (List ℚ)) 1)) ∧
    qMin (colAtQ ([[1, 2], [3, 4]] : List (List ℚ)) 1) ≤
        textbookMedian (colAtQ ([[1, 2], [3, 4]] : List (List ℚ)) 1) ∧
    textbookMedian (colAtQ ([[1, 2], [3, 4]] : List (List ℚ)) 1) ≤
        qMax (colAtQ ([[1, 2], [3, 4]] : List (List ℚ)) 1) ∧
    qMin (colAtQ ([[1, 2], [3, 4]] : List (List ℚ)) 1) ≤
        (colAtQ ([[1, 2], [3, 4]] : List (List ℚ)) 1).sum /
          ((colAtQ ([[1, 2], [3, 4]] : List (List ℚ)) 1).length : ℚ) ∧
    (colAtQ ([[1, 2], [3, 4]] : List (List ℚ)) 1).sum /
          ((colAtQ ([[1, 2], [3, 4]] : List (List ℚ)) 1).length : ℚ) ≤
        qMax (colAtQ ([[1, 2], [3, 4]] : List (List ℚ)) 1) :=
  stats_bounded [[1, 2], [3, 4]] 2 (by decide) (by decide) 1 (by decide)

/-- C5: on the Scenario B input — features `[[1,2,3,4],[5,6,7,8],[9,10,11,12]]`,
labels `[0,1,0]` — the aggregator returns minimums `[1,2,3,4]`,
maximums `[9,10,11,12]`, averages `[5,6,7,8]` and medians `[5,6,7,8]`. -/
theorem scenarioB_aggregates :
    minimums (featuresOf dataB) 4 = [some 1, some 2, some 3, some 4] ∧
    maximums (featuresOf dataB) 4 = [some 9, some 10, some 11, some 12] ∧
    averages (featuresOf dataB) 4 = [some 5, some 6, some 7, some 8] ∧
    medians (featuresOf dataB) 4 = [some 5, some 6, some 7, some 8] ∧
    labelsOf dataB = [some 0, some 1, some 0] := by
  have havg : averages (featuresOf dataB) 4 =
      [colMean (colAt (featuresOf dataB) 0), colMean (colAt (featuresOf dataB) 1),
        colMean (colAt (featuresOf dataB) 2), colMean (colAt (featuresOf dataB) 3)] := rfl
  have h0 : colAt (featuresOf dataB) 0 = ([1, 5, 9] : List ℚ).map some := rfl
  have h1 : colAt (featuresOf dataB) 1 = ([2, 6, 10] : List ℚ).map some := rfl
  have h2 : colAt (featuresOf dataB) 2 = ([3, 7, 11] : List ℚ).map some := rfl
  have h3 : colAt (featuresOf dataB) 3 = ([4, 8, 12] : List ℚ).map some := rfl
  refine ⟨by decide, by decide, ?_, by decide, by decide⟩
  rw [havg, h0, h1, h2, h3, colMean_map_some (by decide), colMean_map_some (by decide),
    colMean_map_some (by decide), colMean_map_some (by decide)]
  norm_num

/-- C9: for every valid input and every feature column `i`, the
computed average equals the column's sum divided by the row count
(exactly, in the rational model of float values). -/
theorem mean_is_sum_div_rows (featsQ : List (List ℚ)) (nf : ℕ)
    (hne : featsQ ≠ []) (hrect : ∀ r ∈ featsQ, r.length = nf)
    (i : ℕ) (hi : i < nf) :
    (averages (featsQ.map (List.map some)) nf).getD i none =
      some ((colAtQ featsQ i).sum / (featsQ.length : ℚ)) := by
  have hb : ∀ r ∈ featsQ, i < r.length := by
    intro r hr
    rw [hrect r hr]
    exact hi
  rw [averages, getD_range_map _ _ hi, colAt_map_some hb,
    colMean_map_some (colAtQ_ne_nil hne i), length_colAtQ]

/-- Witness for C9 at the concrete matrix `[[1,2],[3,4]]`, column 0. -/
theorem mean_is_sum_div_rows_witness :
    (averages (([[1, 2], [3, 4]] : List (List ℚ)).map (List.map some)) 2).getD 0 none =
      some ((colAtQ ([[1, 2], [3, 4]] : List (List ℚ)) 0).sum /
        ((([[1, 2], [3, 4]] : List (List ℚ)).length : ℕ) : ℚ)) :=
  mean_is_sum_div_rows [[1, 2], [3, 4]] 2 (by decide) (by decide) 0 (by decide)

/-- C6: for every loaded matrix (rectangular, with `n + 1` columns),
the splitter's `features` row `r` has the first `n` entries of data
row `r` (cast to float is the identity on floats), and `labels`
entry `r` is the last entry of data row `r` cast to integer.  The
embedding is pure, so neither view is ever mutated. -/
theorem splitter_views (data : List (List Val)) (n : ℕ)
    (hrect : ∀ r ∈ data, r.length = n + 1) (r : ℕ) (hr : r < data.length)
    (j : ℕ) (hj : j < n) :
    ((featuresOf data).getD r []).length = n ∧
    ((featuresOf data).getD r []).getD j none = (data.getD r []).getD j none ∧
    (labelsOf data).getD r none = castI ((data.getD r []).getD n none) := by
  have hrow : (data.getD r []).length = n + 1 := hrect _ (getD_mem data r [] hr)
  have hfr : (featuresOf data).getD r [] = (data.getD r []).dropLast := by
    rw [featuresOf]
    have hl : r < (data.map List.dropLast).length := by
      rw [List.length_map]; exact hr
    rw [List.getD_eq_getElem _ _ hl, List.getElem_map, List.getD_eq_getElem _ _ hr]
  refine ⟨?_, ?_, ?_⟩
  · rw [hfr, List.length_dropLast, hrow]
    omega
  · rw [hfr]
    have hjl : j < (data.getD r []).dropLast.length := by
      rw [List.length_dropLast, hrow]
      omega
    rw [List.getD_eq_getElem _ _ hjl, List.getElem_dropLast]
    exact (List.getD_eq_getElem _ _ (by omega)).symm
  · rw [labelsOf]
    have hl : r < (data.map (fun row => castI (row.getLast?.getD none))).length := by
      rw [List.length_map]; exact hr
    rw [List.getD_eq_getElem _ _ hl, List.getElem_map,
      ← List.getD_eq_getElem data [] hr]
    congr 1
    rw [List.getLast?_eq_getElem?, hrow, Nat.add_sub_cancel,
      List.getElem?_eq_getElem (by omega), Option.getD_some]
    exact (List.getD_eq_getElem _ _ (by omega)).symm

/-- Witness for C6 on the concrete 2×5 matrix `dataOk`, row 0,
feature column 2. -/
theorem splitter_views_witness :
    ((featuresOf dataOk).getD 0 []).length = 4 ∧
    ((featuresOf dataOk).getD 0 []).getD 2 none = (dataOk.getD 0 []).getD 2 none ∧
    (labelsOf dataOk).getD 0 none = castI ((dataOk.getD 0 []).getD 4 none) :=
  splitter_views dataOk 4 (by decide) 0 (by decide) 2 (by decide)

/-- C7 counterexample: the header line `"a, b\n"` parses to the
tokens `["a", " b"]`; the second token keeps its leading space, so
the individual header tokens are NOT whitespace-trimmed. -/
theorem header_token_keeps_space :
    parseHeader lineWS = [['a'], [' ', 'b']] ∧
    ((parseHeader lineWS).all (fun t => pyStrip t = t)) = false := by decide

/-- C7 (amended): the loader strips whitespace from the whole first
line and then splits at commas: the tokens joined with commas
reproduce the stripped line, a nonempty first token starts with
non-whitespace and a nonempty last token ends with non-whitespace,
but tokens may retain whitespace adjacent to interior commas. -/
theorem header_tokens_from_stripped_line (line : List Char)
    (c0 cL : Char) (tl : List Char)
    (h0 : ((parseHeader line).headD []).head? = some c0)
    (hL1 : (parseHeader line).getLast? = some tl)
    (hL2 : tl.getLast? = some cL) :
    joinComma (parseHeader line) = pyStrip line ∧
    isPySpace c0 = false ∧ isPySpace cL = false := by
  refine ⟨joinComma_splitComma (pyStrip line), ?_, ?_⟩
  · exact head?_pyStrip (firstToken_head h0)
  · have hj := joinComma_getLast (parseHeader line) tl cL hL1 hL2
    rw [parseHeader, joinComma_splitComma (pyStrip line)] at hj
    exact getLast?_pyStrip hj

/-- Witness for C7's amended statement at the line `"a, b\n"`. -/
theorem header_tokens_from_stripped_line_witness :
    joinComma (parseHeader lineWS) = pyStrip lineWS ∧
    isPySpace 'a' = false ∧ isPySpace 'b' = false :=
  header_tokens_from_stripped_line lineWS 'a' 'b' [' ', 'b']
    (by decide) (by decide) (by decide)

/-- C2 counterexample: the well-shaped input `fileMal` contains a
non-numeric cell, yet loading succeeds and the program runs to
normal completion — the float-parse failure claimed by the spec does
not happen. -/
theorem malformed_cell_not_fatal :
    hasMalformedCell fileMal = true ∧
    (genfromtxt fileMal.rows).isSome = true ∧
    (run (some fileMal)).isCompleted = true := by decide

/-- C2 (amended): a non-numeric data cell does not abort loading:
whenever the rows have consistent lengths, `genfromtxt` succeeds and
parses the malformed cell (here at row `i`, column `j`) as NaN, and
execution continues past the load step. -/
theorem malformed_cell_parses_nan (rows : List (List Cell))
    (hrect : ∀ r ∈ rows, r.length = (rows.headD []).length)
    (i j : ℕ)
    (hcell : (rows.getD i []).getD j (Cell.num 0) = Cell.malformed) :
    genfromtxt rows = some (rows.map (List.map Cell.parse)) ∧
    ((rows.map (List.map Cell.parse)).getD i []).getD j (some 0) = none := by
  constructor
  · rw [genfromtxt, if_pos]
    simp only [List.all_eq_true, decide_eq_true_eq]
    exact hrect
  · have hi : i < rows.length := by
      by_contra hic
      push_neg at hic
      rw [List.getD_eq_default _ _ hic] at hcell
      simp [List.getD] at hcell
    have hj : j < (rows.getD i []).length := by
      by_contra hjc
      push_neg at hjc
      rw [List.getD_eq_default _ _ hjc] at hcell
      exact Cell.noConfusion hcell
    have hml : i < (rows.map (List.map Cell.parse)).length := by
      rw [List.length_map]; exact hi
    rw [List.getD_eq_getElem _ _ hml, List.getElem_map,
      ← List.getD_eq_getElem rows [] hi]
    have hj3 : j < ((rows.getD i []).map Cell.parse).length := by
      rw [List.length_map]; exact hj
    rw [List.getD_eq_getElem _ _ hj3, List.getElem_map,
      ← List.getD_eq_getElem (rows.getD i []) (Cell.num 0) hj, hcell]
    rfl

/-- Witness for C2's amended statement on the concrete input
`rowsMal` (malformed cell at row 0, column 1). -/
theorem malformed_cell_parses_nan_witness :
    genfromtxt rowsMal = some (rowsMal.map (List.map Cell.parse)) ∧
    ((rowsMal.map (List.map Cell.parse)).getD 0 []).getD 1 (some 0) = none :=
  malformed_cell_parses_nan rowsMal (by decide) 0 1 (by decide)

/-- C8: whenever the program completes normally, the parsed header
has exactly one more token than the feature matrix has columns (the
bar chart's `len(headers)-1` positions must match the `nf` averages,
and the header of a split string is never empty). -/
theorem completion_forces_header_len (f : CSVFile)
    (h : (run (some f)).isCompleted = true) :
    (parseHeader f.headerLine).length = featCount f + 1 := by
  cases hg : genfromtxt f.rows with
  | none => simp [run, hg, Outcome.isCompleted] at h
  | some data =>
    simp only [run, hg] at h
    split at h
    case isFalse => simp [Outcome.isCompleted] at h
    case isTrue h1 =>
      split at h
      case isFalse => simp [Outcome.isCompleted] at h
      case isTrue h2 =>
        split at h
        case isFalse => simp [Outcome.isCompleted] at h
        case isTrue h3 =>
          obtain ⟨hdata, _⟩ := genfromtxt_eq_some hg
          have hnc : ncols data = (f.rows.headD []).length := by
            rw [hdata]; exact ncols_map_parse f.rows
          have hlen1 : 1 ≤ (parseHeader f.headerLine).length :=
            List.length_pos.mpr (splitComma_ne_nil _)
          obtain ⟨h1a, h1b⟩ := h1
          obtain ⟨h3a, h3b⟩ := h3
          rw [featCount]
          omega

/-- Witness for C8 at the fully numeric 5-column input `fileOk`. -/
theorem completion_forces_header_len_witness :
    (parseHeader fileOk.headerLine).length = featCount fileOk + 1 :=
  completion_forces_header_len fileOk (by decide)

/-- C10: a well-shaped input with a non-numeric cell (row `i`,
feature column `j`) does not abort loading: the program completes
normally, and the NaN produced for that cell propagates into all four
statistics of column `j` in the printed report. -/
theorem nan_reaches_report (f : CSVFile)
    (hn : 2 ≤ f.rows.length)
    (hrect : ∀ r ∈ f.rows, r.length = 5)
    (hh : (parseHeader f.headerLine).length = 5)
    (i j : ℕ) (hi : i < f.rows.length) (hj : j < 4)
    (hcell : (f.rows.getD i []).getD j (Cell.num 0) = Cell.malformed) :
    (run (some f)).isCompleted = true ∧
    (((run (some f)).getReport).getD j ⟨[], none, none, none, none⟩).min = none ∧
    (((run (some f)).getReport).getD j ⟨[], none, none, none, none⟩).max = none ∧
    (((run (some f)).getReport).getD j ⟨[], none, none, none, none⟩).avg = none ∧
    (((run (some f)).getReport).getD j ⟨[], none, none, none, none⟩).med = none := by
  have hhead : (f.rows.headD []).length = 5 := by
    cases hr0 : f.rows with
    | nil => rw [hr0] at hn; simp at hn
    | cons a as =>
      show a.length = 5
      exact hrect a (hr0 ▸ List.mem_cons_self a as)
  have hgen : genfromtxt f.rows = some (f.rows.map (List.map Cell.parse)) := by
    rw [genfromtxt, if_pos]
    simp only [List.all_eq_true, decide_eq_true_eq]
    intro r hr
    rw [hrect r hr, hhead]
  have hdl : (f.rows.map (List.map Cell.parse)).length = f.rows.length :=
    List.length_map _ _
  have hnc : ncols (f.rows.map (List.map Cell.parse)) = 5 := by
    rw [ncols_map_parse]; exact hhead
  have h1 : 2 ≤ (f.rows.map (List.map Cell.parse)).length ∧
      1 ≤ ncols (f.rows.map (List.map Cell.parse)) := ⟨by omega, by omega⟩
  have h2 : ncols (f.rows.map (List.map Cell.parse)) - 1 ≤
      (parseHeader f.headerLine).length := by omega
  have h3 : 4 ≤ ncols (f.rows.map (List.map Cell.parse)) - 1 ∧
      (parseHeader f.headerLine).length - 1 =
        ncols (f.rows.map (List.map Cell.parse)) - 1 := ⟨by omega, by omega⟩
  have hrun : run (some f) = Outcome.completed
      (reportOf (parseHeader f.headerLine)
        (featuresOf (f.rows.map (List.map Cell.parse)))
        (ncols (f.rows.map (List.map Cell.parse)) - 1)) := by
    simp only [run, hgen]
    rw [if_pos h1, if_pos h2, if_pos h3]
  -- the NaN cell sits in feature column j
  have hrowlen : (f.rows.getD i []).length = 5 :=
    hrect _ (getD_mem f.rows i [] hi)
  have hjr : j < (f.rows.getD i []).length := by omega
  have hfeatRow : ((f.rows.getD i []).map Cell.parse).dropLast ∈
      featuresOf (f.rows.map (List.map Cell.parse)) := by
    rw [featuresOf]
    refine List.mem_map.mpr ⟨(f.rows.getD i []).map Cell.parse, ?_, rfl⟩
    refine List.mem_map.mpr ⟨f.rows.getD i [], ?_, rfl⟩
    exact getD_mem f.rows i [] hi
  have hjd : j < ((f.rows.getD i []).map Cell.parse).dropLast.length := by
    rw [List.length_dropLast, List.length_map, hrowlen]
    omega
  have hentry : (((f.rows.getD i []).map Cell.parse).dropLast).getD j none = none := by
    rw [List.getD_eq_getElem _ _ hjd, List.getElem_dropLast, List.getElem_map,
      ← List.getD_eq_getElem (f.rows.getD i []) (Cell.num 0) hjr, hcell]
    rfl
  have hmemcol : none ∈ colAt (featuresOf (f.rows.map (List.map Cell.parse))) j := by
    rw [colAt]
    exact List.mem_map.mpr ⟨_, hfeatRow, hentry⟩
  have hjnf : j < ncols (f.rows.map (List.map Cell.parse)) - 1 := by omega
  have hrep : ((run (some f)).getReport).getD j ⟨[], none, none, none, none⟩ =
      ⟨(parseHeader f.headerLine).getD j [],
        (minimums (featuresOf (f.rows.map (List.map Cell.parse)))
          (ncols (f.rows.map (List.map Cell.parse)) - 1)).getD j none,
        (maximums (featuresOf (f.rows.map (List.map Cell.parse)))
          (ncols (f.rows.map (List.map Cell.parse)) - 1)).getD j none,
        (averages (featuresOf (f.rows.map (List.map Cell.parse)))
          (ncols (f.rows.map (List.map Cell.parse)) - 1)).getD j none,
        (medians (featuresOf (f.rows.map (List.map Cell.parse)))
          (ncols (f.rows.map (List.map Cell.parse)) - 1)).getD j none⟩ := by
    rw [hrun]
    show (reportOf _ _ _).getD j _ = _
    rw [reportOf, getD_range_map _ _ hjnf]
  refine ⟨by rw [hrun]; rfl, ?_, ?_, ?_, ?_⟩
  · rw [hrep]
    show (minimums _ _).getD j none = none
    rw [minimums, getD_range_map _ _ hjnf]
    exact colMin_of_none_mem hmemcol
  · rw [hrep]
    show (maximums _ _).getD j none = none
    rw [maximums, getD_range_map _ _ hjnf]
    exact colMax_of_none_mem hmemcol
  · rw [hrep]
    show (averages _ _).getD j none = none
    rw [averages, getD_range_map _ _ hjnf]
    exact colMean_of_none_mem hmemcol
  · rw [hrep]
    show (medians _ _).getD j none = none
    rw [medians, getD_range_map _ _ hjnf]
    exact colMedian_of_none_mem hmemcol

/-- Witness for C10 on the concrete file `fileMal` (malformed cell at
row 0, feature column 1). -/
theorem nan_reaches_report_witness :
    (run (some fileMal)).isCompleted = true ∧
    (((run (some fileMal)).getReport).getD 1 ⟨[], none, none, none, none⟩).min = none ∧
    (((run (some fileMal)).getReport).getD 1 ⟨[], none, none, none, none⟩).max = none ∧
    (((run (some fileMal)).getReport).getD 1 ⟨[], none, none, none, none⟩).avg = none ∧
    (((run (some fileMal)).getReport).getD 1 ⟨[], none, none, none, none⟩).med = none :=
  nan_reaches_report fileMal (by decide) (by decide) (by decide) 0 1
    (by decide) (by decide) (by decide)

end Banknote
